import Mathlib

/-!
Shallow embedding of `src/typescript-generator/index.ts` from the
`elasticsearch-specification` repository: a generator that walks an in-memory
catalog of domain-model type definitions and renders each one as a TypeScript
declaration inside a single `declare namespace T` block.

Strings are modelled by Lean `String`; JavaScript string/array operations that
the source uses (`Array.prototype.join`, `String.prototype.slice(0, -2)`,
`includes`, `endsWith`, the `/^(\d|\W)/` regex) are modelled character-wise by
the helper functions below.  Literal brace characters inside string literals
are written with the escapes \x7b and \x7d.
-/

/-- Model of JavaScript `Array.prototype.join(sep)`: concatenate the list,
interposing `sep` between consecutive elements. -/
def joinSep (sep : String) : List String → String
  | [] => ""
  | [x] => x
  | x :: y :: xs => x ++ sep ++ joinSep sep (y :: xs)

/-- Concatenation of a list of strings (no separator). -/
def strConcat : List String → String
  | [] => ""
  | s :: ss => s ++ strConcat ss

/-- Model of JavaScript `String.prototype.slice(0, -n)`: drop the last `n`
characters of the string. -/
def sliceDropRight (s : String) (n : Nat) : String :=
  ⟨s.data.take (s.data.length - n)⟩

/-- Character-level model of JavaScript `String.prototype.startsWith`. -/
def strStartsWith (s p : String) : Bool :=
  p.data.isPrefixOf s.data

/-- Character-level model of JavaScript `String.prototype.endsWith`. -/
def strEndsWith (s p : String) : Bool :=
  p.data.isSuffixOf s.data

/-- JavaScript word character (`\w` in a regex): ASCII letter, digit or
underscore. -/
def isWordChar (c : Char) : Bool :=
  c.isAlpha || c.isDigit || c == '_'

/-- The `stableApis` allow-list (index.ts lines 14-25). -/
def stableApis : List String :=
  ["IndexRequest", "IndexResponse", "CreateRequest", "CreateResponse",
   "DeleteRequest", "DeleteResponse", "UpdateRequest", "UpdateResponse",
   "GetRequest", "GetResponse"]

/-- The `skipInterface` exclusion list (index.ts lines 26-29). -/
def skipInterface : List String :=
  ["ResponseBase", "DictionaryResponseBase"]

/-- The type-expression language consumed by `unwrapType` (index.ts line 133):
`ArrayOf`, `Dictionary`, `SingleKeyDictionary`, `UnionOf`,
`ImplementsReference` (carrying the referenced type's name and the bound
`closedGenerics`), and the fallback bare reference `Type` (name plus optional
`closedGenerics`, an absent list being modelled as `[]`). -/
inductive TypeExpr where
  | arrayOf (of : TypeExpr)
  | dictionary (key value : TypeExpr)
  | singleKeyDictionary (value : TypeExpr)
  | unionOf (items : List TypeExpr)
  | implementsRef (name : String) (closedGenerics : List TypeExpr)
  | reference (name : String) (closedGenerics : List TypeExpr)

/-- `unwrapType` (index.ts lines 133-157): renders a type expression as
TypeScript source text.  It consults no catalog: a referenced name is emitted
as-is whether or not it exists. -/
def unwrapType : TypeExpr → String
  | .arrayOf o => unwrapType o ++ "[]"
  | .dictionary k v => "Record<" ++ unwrapType k ++ ", " ++ unwrapType v ++ ">"
  | .singleKeyDictionary v => "Record<string, " ++ unwrapType v ++ ">"
  | .unionOf items => joinSep " | " (items.attach.map fun x => unwrapType x.1)
  | .implementsRef n cgs =>
    if n = "DictionaryResponseBase" then
      "Record<" ++ joinSep ", " (cgs.attach.map fun x => unwrapType x.1) ++ ">"
    else if cgs.length > 1 then
      n ++ "<" ++ joinSep ", " (cgs.attach.map fun x => unwrapType x.1) ++ ">"
    else n
  | .reference n cgs =>
    if cgs.length > 0 then
      n ++ "<" ++ joinSep ", " (cgs.attach.map fun x => unwrapType x.1) ++ ">"
    else n
termination_by e => sizeOf e
decreasing_by
  all_goals simp_wf
  all_goals try have hx := List.sizeOf_lt_of_mem x.2
  all_goals omega

theorem unwrapType_arrayOf (o : TypeExpr) :
    unwrapType (.arrayOf o) = unwrapType o ++ "[]" := by
  rw [unwrapType]

theorem unwrapType_dictionary (k v : TypeExpr) :
    unwrapType (.dictionary k v) =
      "Record<" ++ unwrapType k ++ ", " ++ unwrapType v ++ ">" := by
  rw [unwrapType]

theorem unwrapType_singleKeyDictionary (v : TypeExpr) :
    unwrapType (.singleKeyDictionary v) =
      "Record<string, " ++ unwrapType v ++ ">" := by
  rw [unwrapType]

theorem unwrapType_unionOf (items : List TypeExpr) :
    unwrapType (.unionOf items) = joinSep " | " (items.map unwrapType) := by
  rw [unwrapType, List.attach_map_coe]

theorem unwrapType_implementsRef (n : String) (cgs : List TypeExpr) :
    unwrapType (.implementsRef n cgs) =
      if n = "DictionaryResponseBase" then
        "Record<" ++ joinSep ", " (cgs.map unwrapType) ++ ">"
      else if cgs.length > 1 then
        n ++ "<" ++ joinSep ", " (cgs.map unwrapType) ++ ">"
      else n := by
  rw [unwrapType, List.attach_map_coe]

theorem unwrapType_reference (n : String) (cgs : List TypeExpr) :
    unwrapType (.reference n cgs) =
      if cgs.length > 0 then
        n ++ "<" ++ joinSep ", " (cgs.map unwrapType) ++ ">"
      else n := by
  rw [unwrapType, List.attach_map_coe]

/-- A domain-model property (`{ name, type, nullable }`); `type` is `none`
when the loader left it undefined. -/
structure Property where
  name : String
  type : Option TypeExpr
  nullable : Bool

/-- An enum member (`{ name, stringRepresentation }`). -/
structure EnumMember where
  name : String
  stringRepresentation : String

/-- `Domain.Interface`: name, open generics, inheritance list, the
`inheritsFromUnresolved.ResponseBase` flag consulted by `buildInherits`
(index.ts line 168), and the property list. -/
structure InterfaceT where
  name : String
  openGenerics : List String
  inherits : List TypeExpr
  inheritsFromUnresolvedResponseBase : Bool
  properties : List Property

/-- The body of a `Domain.RequestInterface`: either a property list
(`Array.isArray(type.body)` true in index.ts line 99) or a single type
expression. -/
inductive Body where
  | props (l : List Property)
  | expr (e : TypeExpr)

/-- `Domain.RequestInterface`: like `InterfaceT` but with the three member
groups `path`, `queryParameters` and `body`, each possibly undefined. -/
structure RequestInterfaceT where
  name : String
  openGenerics : List String
  inherits : List TypeExpr
  inheritsFromUnresolvedResponseBase : Bool
  path : Option (List Property)
  queryParameters : Option (List Property)
  body : Option Body

/-- `Domain.Enum`: name and members. -/
structure EnumT where
  name : String
  members : List EnumMember

/-- `cleanPropertyName` (index.ts lines 180-184): quote the name as a string
literal when it contains a period or hyphen, or when its first character is a
digit or a non-word character (the regex `/^(\d|\W)/`); otherwise emit it
bare. -/
def cleanPropertyName (name : String) : String :=
  if name.data.contains '.' || name.data.contains '-' ||
      (match name.data with
       | [] => false
       | c :: _ => c.isDigit || !(isWordChar c)) then
    "\"" ++ name ++ "\""
  else name

/-- The comment block emitted for a stable API. -/
def stableComment : String :=
  "  /**\n   * @description Stability: STABLE\n   */\n"

/-- The comment block emitted for an unstable API. -/
def unstableComment : String :=
  "  /**\n   * @description Stability: UNSTABLE\n   */\n"

/-- `generateComment` (index.ts lines 186-200): STABLE comment for names on
the `stableApis` allow-list, UNSTABLE comment for other names ending in
`Request` or `Response`, empty string otherwise. -/
def generateComment (name : String) : String :=
  if stableApis.contains name then stableComment
  else if strEndsWith name "Request" || strEndsWith name "Response" then
    unstableComment
  else ""

/-- `buildGeneric` (index.ts lines 159-164): render the open generic
parameter list, or nothing when it is empty. -/
def buildGeneric (openGenerics : List String) : String :=
  if openGenerics.length > 0 then "<" ++ joinSep ", " openGenerics ++ ">"
  else ""

/-- `buildInherits` (index.ts lines 166-178): no clause for an empty
inheritance list; no clause when the list has exactly one entry and the
`inheritsFromUnresolved.ResponseBase` flag is set; otherwise ` extends `
followed by every ancestor's rendering, comma-separated (built by appending
`rendering + ", "` per ancestor and slicing off the final two characters). -/
def buildInherits (inherits : List TypeExpr) (flag : Bool) : String :=
  if inherits.length > 0 then
    if inherits.length == 1 && flag then ""
    else
      sliceDropRight
        (inherits.foldl (fun acc i => acc ++ unwrapType i ++ ", ") " extends ") 2
  else ""

/-- The member line emitted for one property with a defined type
(the template on index.ts lines 75, 87, 94 and 103, with `ind` the
indentation of the enclosing group). -/
def memberLine (ind : String) (p : Property) (ty : TypeExpr) : String :=
  ind ++ cleanPropertyName p.name ++ (if p.nullable then "?" else "") ++ ": " ++
    unwrapType ty ++ "\n"

/-- The property loop shared by `buildInterface` and `buildRequestInterface`:
append one member line per property, skipping properties whose type is
undefined (`if (property.type === undefined) continue`). -/
def propLoop (ind : String) (code : String) (props : List Property) : String :=
  props.foldl
    (fun acc p =>
      match p.type with
      | none => acc
      | some ty => acc ++ memberLine ind p ty) code

/-- The member lines of a property group, one per defined-type property, in
property order. -/
def memberLines (ind : String) (props : List Property) : List String :=
  props.filterMap fun p => p.type.map fun ty => memberLine ind p ty

/-- `buildStringAlias` (index.ts lines 58-60). -/
def buildStringAlias (name : String) : String :=
  "  export type " ++ name ++ " = string"

/-- `buildNumberAlias` (index.ts lines 62-64). -/
def buildNumberAlias (name : String) : String :=
  "  export type " ++ name ++ " = number"

/-- `buildUnionAlias` (index.ts lines 66-68). -/
def buildUnionAlias (name : String) (wraps : TypeExpr) : String :=
  "  export type " ++ name ++ " = " ++ unwrapType wraps

/-- `buildInterface` (index.ts lines 70-79). -/
def buildInterface (t : InterfaceT) : String :=
  let code := generateComment t.name ++
    "  export interface " ++ t.name ++ buildGeneric t.openGenerics ++
    buildInherits t.inherits t.inheritsFromUnresolvedResponseBase ++ " \x7b\n"
  propLoop "    " code t.properties ++ "  \x7d"

/-- `buildRequestInterface` (index.ts lines 81-113). -/
def buildRequestInterface (t : RequestInterfaceT) : String :=
  let code := generateComment t.name ++
    "  export interface " ++ t.name ++ buildGeneric t.openGenerics ++
    buildInherits t.inherits t.inheritsFromUnresolvedResponseBase ++ " \x7b\n"
  let code :=
    match t.path with
    | none => code
    | some l => propLoop "    " code l
  let code :=
    match t.queryParameters with
    | none => code
    | some l => propLoop "    " code l
  let code :=
    match t.body with
    | none => code
    | some (.props l) =>
        propLoop "      " (code ++ "    body?: \x7b\n") l ++ "    \x7d\n"
    | some (.expr e) => code ++ "    body?: " ++ unwrapType e ++ "\n"
  code ++ "  \x7d"

/-- The quoting rule of the literal-union enum mode (index.ts lines 117-122):
`stringRepresentation` quoted as a string literal, unless it is exactly
`true` or `false`, which stay unquoted. -/
def quoteRep (m : EnumMember) : String :=
  if m.stringRepresentation = "true" || m.stringRepresentation = "false" then
    m.stringRepresentation
  else "\"" ++ m.stringRepresentation ++ "\""

/-- `buildEnum` (index.ts lines 115-131); `enumAsUnion` models the
`process.env.ENUM_AS_UNION` toggle truthiness. -/
def buildEnum (enumAsUnion : Bool) (t : EnumT) : String :=
  if enumAsUnion then
    "  export type " ++ t.name ++ " = " ++
      joinSep " | " (t.members.map quoteRep)
  else
    t.members.foldl
      (fun acc m =>
        acc ++ "    " ++ cleanPropertyName m.name ++ " = \"" ++
          m.stringRepresentation ++ "\",\n")
      ("  export enum " ++ t.name ++ " \x7b\n") ++ "  \x7d"

/-- A catalog entry: one of the six recognized domain-model variants, or
`other`, an entry matching none of the `instanceof` tests of the walker
(index.ts lines 32-48), which emits nothing. -/
inductive TypeDef where
  | stringAlias (name : String)
  | numberAlias (name : String)
  | unionAlias (name : String) (wraps : TypeExpr)
  | requestInterface (t : RequestInterfaceT)
  | interface (t : InterfaceT)
  | enum (t : EnumT)
  | other (name : String)

/-- The `type.name` consulted by the walker's skip check. -/
def defName : TypeDef → String
  | .stringAlias n => n
  | .numberAlias n => n
  | .unionAlias n _ => n
  | .requestInterface t => t.name
  | .interface t => t.name
  | .enum t => t.name
  | .other n => n

/-- Whether a catalog entry is an `Enum`. -/
def isEnum : TypeDef → Bool
  | .enum _ => true
  | _ => false

/-- The walker's per-entry dispatch (index.ts lines 32-48): `none` when the
entry's name is on the `skipInterface` list or the entry matches no known
variant, otherwise the declaration produced by the matching emitter. -/
def emitDecl (enumAsUnion : Bool) (t : TypeDef) : Option String :=
  if skipInterface.contains (defName t) then none
  else
    match t with
    | .stringAlias n => some (buildStringAlias n)
    | .numberAlias n => some (buildNumberAlias n)
    | .unionAlias n w => some (buildUnionAlias n w)
    | .requestInterface r => some (buildRequestInterface r)
    | .interface i => some (buildInterface i)
    | .enum e => some (buildEnum enumAsUnion e)
    | .other _ => none

/-- The declarations the walk emits, in catalog order. -/
def declList (enumAsUnion : Bool) (ts : List TypeDef) : List String :=
  ts.filterMap (emitDecl enumAsUnion)

/-- The top-level assembly (index.ts lines 30-51): start from
`declare namespace T {\n`, append each emitted declaration followed by a
blank-line separator, slice off the final two characters, and close with
`\n}\n\nexport default T`. -/
def typeDefinitions (enumAsUnion : Bool) (ts : List TypeDef) : String :=
  let buf := ts.foldl
    (fun acc t =>
      match emitDecl enumAsUnion t with
      | none => acc
      | some d => acc ++ d ++ "\n\n")
    "declare namespace T \x7b\n"
  sliceDropRight buf 2 ++ "\n\x7d\n\nexport default T"

/-- The program's file writes (index.ts lines 53-56): a single
`fs.writeFileSync` of the assembled text. -/
def programWrites (enumAsUnion : Bool) (ts : List TypeDef) : List String :=
  [typeDefinitions enumAsUnion ts]

/-- The referenced name at the head of a type expression, when it is a
reference. -/
def refName : TypeExpr → Option String
  | .implementsRef n _ => some n
  | .reference n _ => some n
  | _ => none

/-- Modelled from the spec: the `inheritsFromUnresolved` map is produced by
the external domain model (`elasticsearch-client-specification/src/domain`,
not under `src/`); per spec sections 3 and 8 its `ResponseBase` entry is
truthy exactly when the interface's inheritance refers to the designated
excluded base `ResponseBase`.  We model the flag as: some ancestor's
referenced name is `ResponseBase`. -/
def responseBaseFlag (inherits : List TypeExpr) : Bool :=
  inherits.any fun e => refName e == some "ResponseBase"

theorem strConcat_nil : strConcat [] = "" := rfl

theorem strConcat_cons (s : String) (ss : List String) :
    strConcat (s :: ss) = s ++ strConcat ss := rfl

theorem joinSep_singleton (sep x : String) : joinSep sep [x] = x := rfl

theorem joinSep_cons₂ (sep x y : String) (xs : List String) :
    joinSep sep (x :: y :: xs) = x ++ sep ++ joinSep sep (y :: xs) := rfl

/-- Concatenating every element suffixed with `sep` is joining with `sep` and
a final trailing `sep`, for non-empty lists. -/
theorem strConcat_map_append_sep (sep : String) :
    ∀ (l : List String), l ≠ [] →
      strConcat (l.map (fun s => s ++ sep)) = joinSep sep l ++ sep
  | [], h => absurd rfl h
  | [x], _ => by simp [strConcat, joinSep, String.append_empty]
  | x :: y :: xs, _ => by
    rw [List.map_cons, strConcat_cons,
      strConcat_map_append_sep sep (y :: xs) (by simp), joinSep_cons₂]
    simp [String.append_assoc]

/-- Dropping the last two characters of `a ++ b` recovers `a` when `b` is two
characters long. -/
theorem sliceDropRight_append₂ (a b : String) (h : b.data.length = 2) :
    sliceDropRight (a ++ b) 2 = a := by
  apply String.ext
  show ((a ++ b).data).take ((a ++ b).data.length - 2) = a.data
  rw [String.data_append, List.length_append, h, Nat.add_sub_cancel]
  exact List.take_left' rfl

/-- One step of the property loop. -/
theorem propLoop_cons (ind init : String) (p : Property) (ps : List Property) :
    propLoop ind init (p :: ps) =
      propLoop ind
        (match p.type with
         | none => init
         | some ty => init ++ memberLine ind p ty) ps := rfl

/-- The property loop appends exactly the member lines of the defined-type
properties, in order. -/
theorem propLoop_eq (ind : String) :
    ∀ (props : List Property) (init : String),
      propLoop ind init props = init ++ strConcat (memberLines ind props)
  | [], init => by simp [propLoop, memberLines, strConcat]
  | p :: ps, init => by
    rw [propLoop_cons]
    cases hp : p.type with
    | none =>
      rw [propLoop_eq ind ps init]
      simp [memberLines, hp]
    | some ty =>
      rw [propLoop_eq ind ps (init ++ memberLine ind p ty)]
      simp [memberLines, hp, strConcat_cons, String.append_assoc]

/-- The member lines are in one-to-one correspondence with the defined-type
properties. -/
theorem memberLines_length (ind : String) (props : List Property) :
    (memberLines ind props).length =
      (props.filter fun p => p.type.isSome).length := by
  induction props with
  | nil => rfl
  | cons p ps ih =>
    cases hp : p.type <;>
      simp [memberLines, List.filterMap_cons, hp, List.filter_cons,
        Option.isSome] <;>
      simpa [memberLines] using ih

/-- The walker's accumulation loop appends the emitted declarations, each
suffixed with the blank-line separator. -/
theorem walkFold_eq (u : Bool) :
    ∀ (ts : List TypeDef) (init : String),
      ts.foldl
        (fun acc t =>
          match emitDecl u t with
          | none => acc
          | some d => acc ++ d ++ "\n\n") init =
      init ++ strConcat ((declList u ts).map (fun d => d ++ "\n\n"))
  | [], init => by simp [declList, strConcat]
  | t :: ts, init => by
    rw [List.foldl_cons]
    cases he : emitDecl u t with
    | none =>
      rw [walkFold_eq u ts init]
      simp [declList, List.filterMap_cons, he]
    | some d =>
      rw [walkFold_eq u ts (init ++ d ++ "\n\n")]
      simp [declList, List.filterMap_cons, he, strConcat_cons,
        String.append_assoc]

/-- The assembled artifact, in terms of the list of emitted declarations. -/
theorem typeDefinitions_eq (u : Bool) (ts : List TypeDef) :
    typeDefinitions u ts =
      sliceDropRight
        ("declare namespace T \x7b\n" ++
          strConcat ((declList u ts).map (fun d => d ++ "\n\n"))) 2 ++
        "\n\x7d\n\nexport default T" := by
  unfold typeDefinitions
  rw [walkFold_eq]

/-- The inheritance loop of `buildInherits`. -/
theorem inheritsFold_eq :
    ∀ (l : List TypeExpr) (init : String),
      l.foldl (fun acc i => acc ++ unwrapType i ++ ", ") init =
        init ++ strConcat (l.map (fun i => unwrapType i ++ ", "))
  | [], init => by simp [strConcat]
  | i :: is, init => by
    rw [List.foldl_cons, inheritsFold_eq is (init ++ unwrapType i ++ ", ")]
    simp [strConcat_cons, String.append_assoc]

/-- `buildInherits` on a non-empty list, when the single-`ResponseBase` guard
does not fire, renders ` extends ` followed by the comma-separated ancestor
renderings. -/
theorem buildInherits_render (inherits : List TypeExpr) (flag : Bool)
    (hne : inherits ≠ [])
    (hguard : ¬(inherits.length = 1 ∧ flag = true)) :
    buildInherits inherits flag =
      " extends " ++ joinSep ", " (inherits.map unwrapType) := by
  unfold buildInherits
  rw [if_pos (by cases inherits with
        | nil => exact absurd rfl hne
        | cons a as => simp)]
  rw [if_neg (by
        intro hb
        rcases Bool.and_eq_true_iff.mp hb with ⟨h1, h2⟩
        exact hguard ⟨Nat.beq_eq_true_eq _ _ ▸ h1, h2⟩)]
  rw [inheritsFold_eq]
  have hmap : inherits.map (fun i => unwrapType i ++ ", ") =
      (inherits.map unwrapType).map (fun s => s ++ ", ") := by
    rw [List.map_map]
    rfl
  rw [hmap, strConcat_map_append_sep ", " (inherits.map unwrapType)
        (by simpa using hne)]
  rw [← String.append_assoc]
  exact sliceDropRight_append₂ _ _ rfl

/-- A fuel-bounded variant of `unwrapType`, returning `none` when the fuel
runs out.  Used to express that the source recursion terminates: fuel equal
to the expression's size always suffices. -/
def unwrapFuel : Nat → TypeExpr → Option String
  | 0, _ => none
  | n + 1, e =>
    match e with
    | .arrayOf o => (unwrapFuel n o).map (fun s => s ++ "[]")
    | .dictionary k v =>
        (unwrapFuel n k).bind fun sk =>
          (unwrapFuel n v).map fun sv =>
            "Record<" ++ sk ++ ", " ++ sv ++ ">"
    | .singleKeyDictionary v =>
        (unwrapFuel n v).map fun sv => "Record<string, " ++ sv ++ ">"
    | .unionOf items =>
        (items.mapM (unwrapFuel n)).map fun l => joinSep " | " l
    | .implementsRef nm cgs =>
        if nm = "DictionaryResponseBase" then
          (cgs.mapM (unwrapFuel n)).map fun l =>
            "Record<" ++ joinSep ", " l ++ ">"
        else if cgs.length > 1 then
          (cgs.mapM (unwrapFuel n)).map fun l =>
            nm ++ "<" ++ joinSep ", " l ++ ">"
        else some nm
    | .reference nm cgs =>
        if cgs.length > 0 then
          (cgs.mapM (unwrapFuel n)).map fun l =>
            nm ++ "<" ++ joinSep ", " l ++ ">"
        else some nm

theorem mapM_some_of_forall (f : TypeExpr → Option String)
    (g : TypeExpr → String) :
    ∀ (l : List TypeExpr), (∀ x ∈ l, f x = some (g x)) →
      l.mapM f = some (l.map g)
  | [], _ => rfl
  | a :: as, h => by
    rw [List.mapM_cons, h a (by simp),
      mapM_some_of_forall f g as (fun x hx => h x (by simp [hx]))]
    rfl

theorem TypeExpr.one_le_sizeOf (e : TypeExpr) : 1 ≤ sizeOf e := by
  cases e <;> simp <;> omega

/-- Fuel at least the size of the expression always suffices, and the result
agrees with `unwrapType`. -/
theorem unwrapFuel_complete :
    ∀ (n : Nat) (e : TypeExpr), sizeOf e ≤ n →
      unwrapFuel n e = some (unwrapType e) := by
  intro n
  induction n with
  | zero =>
    intro e he
    exact absurd (Nat.le_trans (TypeExpr.one_le_sizeOf e) he) (by omega)
  | succ n ih =>
    intro e he
    cases e with
    | arrayOf o =>
      simp only [unwrapFuel, ih o (by simp at he; omega), unwrapType_arrayOf]
      rfl
    | dictionary k v =>
      simp only [unwrapFuel, ih k (by simp at he; omega),
        ih v (by simp at he; omega), unwrapType_dictionary]
      rfl
    | singleKeyDictionary v =>
      simp only [unwrapFuel, ih v (by simp at he; omega),
        unwrapType_singleKeyDictionary]
      rfl
    | unionOf items =>
      have hmem : ∀ x ∈ items, unwrapFuel n x = some (unwrapType x) := by
        intro x hx
        have hlt := List.sizeOf_lt_of_mem hx
        exact ih x (by simp at he; omega)
      simp only [unwrapFuel, mapM_some_of_forall _ _ items hmem,
        unwrapType_unionOf]
      rfl
    | implementsRef nm cgs =>
      have hmem : ∀ x ∈ cgs, unwrapFuel n x = some (unwrapType x) := by
        intro x hx
        have hlt := List.sizeOf_lt_of_mem hx
        exact ih x (by simp at he; omega)
      simp only [unwrapFuel, mapM_some_of_forall _ _ cgs hmem,
        unwrapType_implementsRef]
      split
      · rfl
      · split <;> rfl
    | reference nm cgs =>
      have hmem : ∀ x ∈ cgs, unwrapFuel n x = some (unwrapType x) := by
        intro x hx
        have hlt := List.sizeOf_lt_of_mem hx
        exact ih x (by simp at he; omega)
      simp only [unwrapFuel, mapM_some_of_forall _ _ cgs hmem,
        unwrapType_reference]
      split <;> rfl

theorem stableComment_not_lead (l : List Char) :
    stableComment.data.isPrefixOf (' ' :: ' ' :: 'e' :: l) = false := rfl

theorem unstableComment_not_lead (l : List Char) :
    unstableComment.data.isPrefixOf (' ' :: ' ' :: 'e' :: l) = false := rfl

/-- A string whose text begins with two spaces and an `e` (as every
`  export ...` declaration does) begins with neither stability comment. -/
theorem no_note_of_export_shape (s : String) (l : List Char)
    (h : s.data = ' ' :: ' ' :: 'e' :: l) :
    strStartsWith s stableComment = false ∧
      strStartsWith s unstableComment = false := by
  unfold strStartsWith
  rw [h]
  exact ⟨stableComment_not_lead l, unstableComment_not_lead l⟩

theorem export_shape_append (a s : String) (l : List Char)
    (h : a.data = ' ' :: ' ' :: 'e' :: l) :
    (a ++ s).data = ' ' :: ' ' :: 'e' :: (l ++ s.data) := by
  rw [String.data_append, h]
  rfl

/-- The enum-block loop of `buildEnum` (index.ts lines 126-128). -/
theorem enumFold_eq :
    ∀ (l : List EnumMember) (init : String),
      l.foldl
        (fun acc m =>
          acc ++ "    " ++ cleanPropertyName m.name ++ " = \"" ++
            m.stringRepresentation ++ "\",\n") init =
      init ++ strConcat
        (l.map fun m =>
          "    " ++ cleanPropertyName m.name ++ " = \"" ++
            m.stringRepresentation ++ "\",\n")
  | [], init => by simp [strConcat]
  | m :: ms, init => by
    rw [List.foldl_cons, enumFold_eq ms]
    simp [strConcat_cons, String.append_assoc]

theorem mem_data_append (c : Char) (a b : String) :
    c ∈ (a ++ b).data ↔ c ∈ a.data ∨ c ∈ b.data := by
  rw [String.data_append]
  exact List.mem_append

/-- Joining newline-free strings with a newline-free separator yields a
newline-free string (and likewise for any character). -/
theorem joinSep_not_mem (c : Char) (sep : String) (hsep : c ∉ sep.data) :
    ∀ (l : List String), (∀ x ∈ l, c ∉ x.data) →
      c ∉ (joinSep sep l).data
  | [], _ => by simp [joinSep]
  | [x], h => by simpa [joinSep] using h x (by simp)
  | x :: y :: xs, h => by
    rw [joinSep_cons₂]
    intro hc
    rcases (mem_data_append c _ _).mp hc with hc' | hc'
    · rcases (mem_data_append c _ _).mp hc' with hc'' | hc''
      · exact h x (by simp) hc''
      · exact hsep hc''
    · exact joinSep_not_mem c sep hsep (y :: xs)
        (fun z hz => h z (by simp [hz])) hc'

/-- The body segment of a request-interface declaration: nothing when `body`
is undefined, a nested optional `body` object when it is a property list, a
flat optional `body` member when it is a single type expression. -/
def bodyText : Option Body → String
  | none => ""
  | some (.props l) =>
      "    body?: \x7b\n" ++ strConcat (memberLines "      " l) ++ "    \x7d\n"
  | some (.expr e) => "    body?: " ++ unwrapType e ++ "\n"

/-- Closed form of `buildInterface`: comment, header, one member line per
defined-type property, closing brace. -/
theorem buildInterface_eq (t : InterfaceT) :
    buildInterface t =
      generateComment t.name ++ "  export interface " ++ t.name ++
        buildGeneric t.openGenerics ++
        buildInherits t.inherits t.inheritsFromUnresolvedResponseBase ++
        " \x7b\n" ++ strConcat (memberLines "    " t.properties) ++
        "  \x7d" := by
  simp only [buildInterface, propLoop_eq, String.append_assoc]

/-- Closed form of `buildRequestInterface`: comment, header, the path lines,
then the query lines, then the body segment, closing brace. -/
theorem buildRequestInterface_eq (t : RequestInterfaceT) :
    buildRequestInterface t =
      generateComment t.name ++ "  export interface " ++ t.name ++
        buildGeneric t.openGenerics ++
        buildInherits t.inherits t.inheritsFromUnresolvedResponseBase ++
        " \x7b\n" ++ strConcat (memberLines "    " (t.path.getD [])) ++
        strConcat (memberLines "    " (t.queryParameters.getD [])) ++
        bodyText t.body ++ "  \x7d" := by
  unfold buildRequestInterface
  cases t.path <;> cases t.queryParameters <;>
    rcases t.body with _ | b <;> try cases b
  all_goals
    simp only [propLoop_eq, bodyText, memberLines, Option.getD_none,
      Option.getD_some, List.filterMap_nil, strConcat_nil,
      String.append_assoc, String.append_empty, String.empty_append]

/-- C3: for every `ImplementsReference` expression, `unwrapType` returns the
mapping-type syntax over the renderings of the closed generics (in order)
when the referenced name is the `DictionaryResponseBase` sentinel; otherwise
the referenced name parameterized by the renderings in order when there are
two or more closed generics; otherwise (zero or one closed generic) the bare
referenced name. -/
theorem c3_implementsRef_render (name : String) (cgs : List TypeExpr) :
    (name = "DictionaryResponseBase" →
      unwrapType (.implementsRef name cgs) =
        "Record<" ++ joinSep ", " (cgs.map unwrapType) ++ ">")
    ∧ (name ≠ "DictionaryResponseBase" → cgs.length > 1 →
      unwrapType (.implementsRef name cgs) =
        name ++ "<" ++ joinSep ", " (cgs.map unwrapType) ++ ">")
    ∧ (name ≠ "DictionaryResponseBase" → cgs.length ≤ 1 →
      unwrapType (.implementsRef name cgs) = name) := by
  refine ⟨fun h1 => ?_, fun h1 h2 => ?_, fun h1 h2 => ?_⟩ <;>
    rw [unwrapType_implementsRef]
  · rw [if_pos h1]
  · rw [if_neg h1, if_pos h2]
  · rw [if_neg h1, if_neg (by omega)]

/-- Witness for C3 at concrete inputs: the sentinel with two generics, a
plain name with two generics, a plain name with one generic. -/
theorem c3_implementsRef_render_witness :
    unwrapType
        (.implementsRef "DictionaryResponseBase"
          [.reference "K" [], .reference "V" []]) =
      "Record<" ++
        joinSep ", "
          (([TypeExpr.reference "K" [], .reference "V" []]).map unwrapType) ++
        ">"
    ∧ unwrapType (.implementsRef "Foo" [.reference "K" [], .reference "V" []]) =
      "Foo" ++ "<" ++
        joinSep ", "
          (([TypeExpr.reference "K" [], .reference "V" []]).map unwrapType) ++
        ">"
    ∧ unwrapType (.implementsRef "Foo" [.reference "K" []]) = "Foo" :=
  ⟨(c3_implementsRef_render "DictionaryResponseBase"
      [.reference "K" [], .reference "V" []]).1 rfl,
   (c3_implementsRef_render "Foo"
      [.reference "K" [], .reference "V" []]).2.1 (by decide) (by decide),
   (c3_implementsRef_render "Foo"
      [.reference "K" []]).2.2 (by decide) (by decide)⟩

/-- C9: `unwrapType` is total over every type expression built from the six
variants: the recursion descends only into structurally smaller
sub-expressions, so any fuel bound of at least the expression's size makes
the fuel-instrumented version return `some` of the same string — for every
expression, including ones whose referenced names exist in no catalog
(`unwrapType` takes no catalog at all). -/
theorem c9_unwrapType_total (e : TypeExpr) (n : Nat) (h : sizeOf e ≤ n) :
    unwrapFuel n e = some (unwrapType e) :=
  unwrapFuel_complete n e h

/-- Witness for C9 at a concrete expression and fuel bound. -/
theorem c9_unwrapType_total_witness :
    sizeOf
        (TypeExpr.arrayOf
          (.dictionary (.reference "K" []) (.unionOf [.reference "V" []]))) ≤
      1000
    ∧ unwrapFuel 1000
        (TypeExpr.arrayOf
          (.dictionary (.reference "K" []) (.unionOf [.reference "V" []]))) =
      some (unwrapType
        (TypeExpr.arrayOf
          (.dictionary (.reference "K" []) (.unionOf [.reference "V" []])))) :=
  ⟨by decide,
   c9_unwrapType_total
     (TypeExpr.arrayOf
       (.dictionary (.reference "K" []) (.unionOf [.reference "V" []])))
     1000 (by decide)⟩

/-- C6: an Interface's emitted block is the comment, the header, exactly one
member line per property with a defined type (in property order, so each
line corresponds to a distinct property), and the closing brace; properties
with an undefined type contribute no line and no other output. -/
theorem c6_interface_member_lines (t : InterfaceT) :
    buildInterface t =
      generateComment t.name ++ "  export interface " ++ t.name ++
        buildGeneric t.openGenerics ++
        buildInherits t.inherits t.inheritsFromUnresolvedResponseBase ++
        " \x7b\n" ++ strConcat (memberLines "    " t.properties) ++
        "  \x7d"
    ∧ (memberLines "    " t.properties).length =
        (t.properties.filter fun p => p.type.isSome).length :=
  ⟨buildInterface_eq t, memberLines_length "    " t.properties⟩

/-- C5: a RequestInterface's emitted members appear in the fixed group order
path properties, then query properties, then body; each property line is the
sanitized name, an optional `?` when nullable, and the rendering of its type
(`memberLine`); a property-list body becomes a nested optional `body` object
one level deeper, a single-expression body a flat optional `body` member. -/
theorem c5_requestInterface_layout (t : RequestInterfaceT) :
    buildRequestInterface t =
      generateComment t.name ++ "  export interface " ++ t.name ++
        buildGeneric t.openGenerics ++
        buildInherits t.inherits t.inheritsFromUnresolvedResponseBase ++
        " \x7b\n" ++ strConcat (memberLines "    " (t.path.getD [])) ++
        strConcat (memberLines "    " (t.queryParameters.getD [])) ++
        bodyText t.body ++ "  \x7d"
    ∧ (∀ p ty,
        memberLine "    " p ty =
          "    " ++ cleanPropertyName p.name ++
            (if p.nullable then "?" else "") ++ ": " ++ unwrapType ty ++
            "\n") :=
  ⟨buildRequestInterface_eq t, fun _ _ => rfl⟩

/-- C7: in literal-union mode the enum emitter produces a one-line alias
whose right-hand side is the alternation, in member order, of each member's
`stringRepresentation` quoted as a string literal, except that exactly
`true` or `false` stays unquoted; when the name and the representations are
newline-free the whole alias is a single line (contains no newline). -/
theorem c7_enum_union_mode (t : EnumT) :
    buildEnum true t =
      "  export type " ++ t.name ++ " = " ++
        joinSep " | " (t.members.map quoteRep)
    ∧ ((∀ m ∈ t.members, '\n' ∉ m.stringRepresentation.data) →
        '\n' ∉ t.name.data → '\n' ∉ (buildEnum true t).data) := by
  have h1 : buildEnum true t =
      "  export type " ++ t.name ++ " = " ++
        joinSep " | " (t.members.map quoteRep) := by
    simp [buildEnum]
  refine ⟨h1, fun hm hn hc => ?_⟩
  rw [h1] at hc
  have hq : ∀ x ∈ t.members.map quoteRep, '\n' ∉ x.data := by
    intro x hx
    rcases List.mem_map.mp hx with ⟨m, hm', rfl⟩
    unfold quoteRep
    split
    · exact hm m hm'
    · intro hc'
      rcases (mem_data_append _ _ _).mp hc' with hc'' | hc''
      · rcases (mem_data_append _ _ _).mp hc'' with hc3 | hc3
        · exact absurd hc3 (by decide)
        · exact hm m hm' hc3
      · exact absurd hc'' (by decide)
  have hj := joinSep_not_mem '\n' " | " (by decide) (t.members.map quoteRep) hq
  rcases (mem_data_append _ _ _).mp hc with hc1 | hc1
  · rcases (mem_data_append _ _ _).mp hc1 with hc2 | hc2
    · rcases (mem_data_append _ _ _).mp hc2 with hc3 | hc3
      · exact absurd hc3 (by decide)
      · exact hn hc3
    · exact absurd hc2 (by decide)
  · exact hj hc1

/-- Witness for C7: the two-member `Conflicts` enum (and, for the quoting
exception, a boolean-literal member) in literal-union mode. -/
theorem c7_enum_union_mode_witness :
    buildEnum true
        ⟨"Conflicts", [⟨"abort", "abort"⟩, ⟨"proceed", "proceed"⟩]⟩ =
      "  export type " ++ "Conflicts" ++ " = " ++
        joinSep " | "
          (([⟨"abort", "abort"⟩,
             ⟨"proceed", "proceed"⟩] : List EnumMember).map quoteRep)
    ∧ '\n' ∉ (buildEnum true
        ⟨"Conflicts", [⟨"abort", "abort"⟩, ⟨"proceed", "proceed"⟩]⟩).data
    ∧ quoteRep ⟨"t", "true"⟩ = "true"
    ∧ quoteRep ⟨"abort", "abort"⟩ = "\"" ++ "abort" ++ "\"" :=
  ⟨(c7_enum_union_mode
      ⟨"Conflicts", [⟨"abort", "abort"⟩, ⟨"proceed", "proceed"⟩]⟩).1,
   (c7_enum_union_mode
      ⟨"Conflicts", [⟨"abort", "abort"⟩, ⟨"proceed", "proceed"⟩]⟩).2
     (by decide) (by decide),
   by decide, by decide⟩

/-- C8: the literal-union toggle never affects the output of any emitter
other than the Enum emitter — for every non-Enum catalog entry, the emitted
declaration under any two toggle values is identical. -/
theorem c8_toggle_noninterference (b₁ b₂ : Bool) (t : TypeDef)
    (h : isEnum t = false) :
    emitDecl b₁ t = emitDecl b₂ t := by
  cases t <;> first
    | rfl
    | exact absurd h (by simp [isEnum])

/-- Witness for C8: a string alias emits identically under both toggle
values. -/
theorem c8_toggle_noninterference_witness :
    isEnum (TypeDef.stringAlias "Id") = false ∧
      emitDecl true (TypeDef.stringAlias "Id") =
        emitDecl false (TypeDef.stringAlias "Id") :=
  ⟨rfl, c8_toggle_noninterference true false (TypeDef.stringAlias "Id") rfl⟩

/-- C10: when the walk emits no declarations (empty catalog, or every entry
excluded or of no known variant), the fixed two-character trim removes the
namespace header's opening brace and newline, so the artifact is exactly
`declare namespace T ` followed by a newline, `}`, a blank line, and
`export default T` — not a well-formed namespace block. -/
theorem c10_empty_walk_artifact (u : Bool) (ts : List TypeDef)
    (h : declList u ts = []) :
    typeDefinitions u ts =
      "declare namespace T " ++ "\n" ++ "\x7d" ++ "\n\n" ++
        "export default T" := by
  rw [typeDefinitions_eq, h]
  rfl

/-- Witness for C10: a catalog whose entries are an excluded name and an
unrecognized variant emits nothing and yields the degenerate artifact. -/
theorem c10_empty_walk_artifact_witness :
    declList true [TypeDef.stringAlias "ResponseBase", TypeDef.other "Foo"] =
      []
    ∧ typeDefinitions true
        [TypeDef.stringAlias "ResponseBase", TypeDef.other "Foo"] =
      "declare namespace T " ++ "\n" ++ "\x7d" ++ "\n\n" ++
        "export default T" :=
  ⟨rfl,
   c10_empty_walk_artifact true
     [TypeDef.stringAlias "ResponseBase", TypeDef.other "Foo"] rfl⟩

/-- C4 counterexample: on a catalog that emits no declarations (here the
empty catalog) the artifact is not one namespace declaration wrapping the
emitted declarations joined by blank lines — the two-character trim has
eaten the opening brace, so the claim's universally quantified description
fails. -/
theorem c4_counterexample :
    typeDefinitions true [] ≠
      "declare namespace T \x7b\n" ++ joinSep "\n\n" (declList true []) ++
        "\n\x7d\n\nexport default T" := by
  decide

/-- C4 (amended to catalogs whose walk emits at least one declaration): the
artifact is exactly one outer namespace declaration wrapping the emitted
declarations in order, consecutive declarations separated by exactly one
blank line, no trailing separator, and the program performs exactly one
write, of that final text. -/
theorem c4_assembly (u : Bool) (ts : List TypeDef)
    (h : declList u ts ≠ []) :
    typeDefinitions u ts =
      "declare namespace T \x7b\n" ++ joinSep "\n\n" (declList u ts) ++
        "\n\x7d\n\nexport default T"
    ∧ programWrites u ts = [typeDefinitions u ts] := by
  refine ⟨?_, rfl⟩
  rw [typeDefinitions_eq, strConcat_map_append_sep "\n\n" (declList u ts) h,
    ← String.append_assoc,
    sliceDropRight_append₂
      ("declare namespace T \x7b\n" ++ joinSep "\n\n" (declList u ts)) "\n\n"
      (by decide)]

/-- Witness for C4 at a one-declaration catalog. -/
theorem c4_assembly_witness :
    declList false [TypeDef.stringAlias "Id"] ≠ []
    ∧ typeDefinitions false [TypeDef.stringAlias "Id"] =
      "declare namespace T \x7b\n" ++
        joinSep "\n\n" (declList false [TypeDef.stringAlias "Id"]) ++
        "\n\x7d\n\nexport default T" :=
  ⟨by decide,
   (c4_assembly false [TypeDef.stringAlias "Id"] (by decide)).1⟩

/-- C1 counterexample: `DictionaryResponseBase` is on the exclusion list, yet
an interface whose only ancestor references it (its unresolved-`ResponseBase`
flag is accordingly false) still renders an inheritance clause — here
` extends Record<>` — contradicting the claim that a single excluded-name
ancestor drops the clause. -/
theorem c1_counterexample :
    ("DictionaryResponseBase" ∈ skipInterface)
    ∧ responseBaseFlag [TypeExpr.implementsRef "DictionaryResponseBase" []] =
        false
    ∧ buildInherits [TypeExpr.implementsRef "DictionaryResponseBase" []]
        (responseBaseFlag
          [TypeExpr.implementsRef "DictionaryResponseBase" []]) =
        " extends Record<>"
    ∧ (" extends Record<>" : String) ≠ "" := by
  have hu : unwrapType (.implementsRef "DictionaryResponseBase" []) =
      "Record<>" := by
    rw [unwrapType_implementsRef]
    rfl
  refine ⟨by decide, by decide, ?_, by decide⟩
  unfold buildInherits
  rw [if_pos (by decide), if_neg (by decide), List.foldl_cons,
    List.foldl_nil, hu]
  decide

/-- C1 (amended): with the unresolved-`ResponseBase` flag modelled from the
spec as "some ancestor references the designated base `ResponseBase`", the
declaration drops its inheritance clause exactly when the inherits list has
one entry and that entry is `ResponseBase`; with two or more entries, or a
non-empty list whose single entry is not `ResponseBase` (even the other
excluded name `DictionaryResponseBase`), it renders ` extends ` followed by
every ancestor's rendering in list order; an empty list renders nothing. -/
theorem c1_inherits_clause (inherits : List TypeExpr) (flag : Bool)
    (hflag : flag = responseBaseFlag inherits) :
    (inherits.length = 1 → responseBaseFlag inherits = true →
        buildInherits inherits flag = "")
    ∧ (inherits ≠ [] →
        ¬(inherits.length = 1 ∧ responseBaseFlag inherits = true) →
        buildInherits inherits flag =
          " extends " ++ joinSep ", " (inherits.map unwrapType))
    ∧ (inherits = [] → buildInherits inherits flag = "") := by
  refine ⟨fun h1 h2 => ?_, fun hne hg => ?_, fun h => ?_⟩
  · unfold buildInherits
    rw [if_pos (by omega), if_pos (by simp [h1, hflag, h2])]
  · exact buildInherits_render inherits flag hne (by rw [hflag]; exact hg)
  · subst h
    rfl

/-- Witness for C1 at concrete inputs: a lone `ResponseBase` ancestor drops
the clause; two ancestors render both. -/
theorem c1_inherits_clause_witness :
    buildInherits [TypeExpr.implementsRef "ResponseBase" []]
        (responseBaseFlag [TypeExpr.implementsRef "ResponseBase" []]) = ""
    ∧ buildInherits
        [TypeExpr.implementsRef "A" [], TypeExpr.implementsRef "B" []]
        (responseBaseFlag
          [TypeExpr.implementsRef "A" [], TypeExpr.implementsRef "B" []]) =
      " extends " ++
        joinSep ", "
          (([TypeExpr.implementsRef "A" [],
             TypeExpr.implementsRef "B" []]).map unwrapType) :=
  ⟨(c1_inherits_clause [TypeExpr.implementsRef "ResponseBase" []] _ rfl).1
     (by decide) (by decide),
   (c1_inherits_clause
       [TypeExpr.implementsRef "A" [], TypeExpr.implementsRef "B" []] _
       rfl).2.1
     (by simp) (by decide)⟩

/-- C2 counterexample: the walker emits the string alias `FooRequest`, whose
name ends in `Request` and is not on the allow-list, yet its declaration does
not begin with the UNSTABLE annotation comment (nor any comment): only the
interface and request-interface emitters prepend `generateComment`. -/
theorem c2_counterexample :
    emitDecl false (TypeDef.stringAlias "FooRequest") =
      some (buildStringAlias "FooRequest")
    ∧ strEndsWith "FooRequest" "Request" = true
    ∧ stableApis.contains "FooRequest" = false
    ∧ strStartsWith (buildStringAlias "FooRequest") unstableComment = false
    ∧ strStartsWith (buildStringAlias "FooRequest") stableComment = false :=
  ⟨rfl, by decide, by decide, by decide, by decide⟩

theorem no_note_export_type (s : String) :
    strStartsWith ("  export type " ++ s) stableComment = false ∧
      strStartsWith ("  export type " ++ s) unstableComment = false :=
  no_note_of_export_shape _ _
    (export_shape_append "  export type " s ("xport type ").data rfl)

theorem no_note_export_enum (s : String) :
    strStartsWith ("  export enum " ++ s) stableComment = false ∧
      strStartsWith ("  export enum " ++ s) unstableComment = false :=
  no_note_of_export_shape _ _
    (export_shape_append "  export enum " s ("xport enum ").data rfl)

/-- C2 (amended): the stability annotation is prepended only by the
interface and request-interface emitters, and is a pure function of the
definition's name — STABLE when on the allow-list, UNSTABLE when the name is
not on the list and ends in `Request` or `Response`, none otherwise; alias
and enum declarations (either mode) never begin with either annotation. -/
theorem c2_stability_comments (name : String) (w : TypeExpr) (i : InterfaceT)
    (r : RequestInterfaceT) (en : EnumT) (u : Bool) :
    generateComment name =
      (if stableApis.contains name then stableComment
       else if strEndsWith name "Request" || strEndsWith name "Response" then
         unstableComment
       else "")
    ∧ (∃ rest, buildInterface i = generateComment i.name ++ rest)
    ∧ (∃ rest, buildRequestInterface r = generateComment r.name ++ rest)
    ∧ strStartsWith (buildStringAlias name) stableComment = false
    ∧ strStartsWith (buildStringAlias name) unstableComment = false
    ∧ strStartsWith (buildNumberAlias name) stableComment = false
    ∧ strStartsWith (buildNumberAlias name) unstableComment = false
    ∧ strStartsWith (buildUnionAlias name w) stableComment = false
    ∧ strStartsWith (buildUnionAlias name w) unstableComment = false
    ∧ strStartsWith (buildEnum u en) stableComment = false
    ∧ strStartsWith (buildEnum u en) unstableComment = false := by
  have hsa : buildStringAlias name = "  export type " ++ (name ++ " = string") := by
    unfold buildStringAlias
    rw [String.append_assoc]
  have hna : buildNumberAlias name = "  export type " ++ (name ++ " = number") := by
    unfold buildNumberAlias
    rw [String.append_assoc]
  have hua : buildUnionAlias name w =
      "  export type " ++ (name ++ (" = " ++ unwrapType w)) := by
    unfold buildUnionAlias
    simp only [String.append_assoc]
  have hen : ∀ u' : Bool, ∃ rest, buildEnum u' en = "  export type " ++ rest ∨
      buildEnum u' en = "  export enum " ++ rest := by
    intro u'
    cases u' with
    | true =>
      refine ⟨en.name ++ (" = " ++ joinSep " | " (en.members.map quoteRep)), Or.inl ?_⟩
      simp [buildEnum, String.append_assoc]
    | false =>
      refine ⟨en.name ++ (" \x7b\n" ++
        (strConcat
          (en.members.map fun m =>
            "    " ++ cleanPropertyName m.name ++ " = \"" ++
              m.stringRepresentation ++ "\",\n") ++ "  \x7d")), Or.inr ?_⟩
      unfold buildEnum
      rw [if_neg (by simp), enumFold_eq]
      simp only [String.append_assoc]
  refine ⟨rfl,
    ⟨"  export interface " ++ i.name ++ buildGeneric i.openGenerics ++
        buildInherits i.inherits i.inheritsFromUnresolvedResponseBase ++
        " \x7b\n" ++ strConcat (memberLines "    " i.properties) ++ "  \x7d",
      ?_⟩,
    ⟨"  export interface " ++ r.name ++ buildGeneric r.openGenerics ++
        buildInherits r.inherits r.inheritsFromUnresolvedResponseBase ++
        " \x7b\n" ++ strConcat (memberLines "    " (r.path.getD [])) ++
        strConcat (memberLines "    " (r.queryParameters.getD [])) ++
        bodyText r.body ++ "  \x7d",
      ?_⟩,
    ?_, ?_, ?_, ?_, ?_, ?_, ?_, ?_⟩
  · rw [buildInterface_eq]
    simp only [String.append_assoc]
  · rw [buildRequestInterface_eq]
    simp only [String.append_assoc]
  · rw [hsa]
    exact (no_note_export_type _).1
  · rw [hsa]
    exact (no_note_export_type _).2
  · rw [hna]
    exact (no_note_export_type _).1
  · rw [hna]
    exact (no_note_export_type _).2
  · rw [hua]
    exact (no_note_export_type _).1
  · rw [hua]
    exact (no_note_export_type _).2
  · rcases hen u with ⟨rest, h | h⟩
    · rw [h]
      exact (no_note_export_type _).1
    · rw [h]
      exact (no_note_export_enum _).1
  · rcases hen u with ⟨rest, h | h⟩
    · rw [h]
      exact (no_note_export_type _).2
    · rw [h]
      exact (no_note_export_enum _).2

/-- Witness for C2: no hypotheses beyond universally quantified inputs, but
instantiated concretely for the record. -/
theorem c2_stability_comments_witness :
    generateComment "IndexRequest" = stableComment
    ∧ generateComment "FooRequest" = unstableComment
    ∧ generateComment "Hit" = "" := by
  refine ⟨?_, ?_, ?_⟩
  · have h := (c2_stability_comments "IndexRequest" (.reference "X" [])
      ⟨"A", [], [], false, []⟩ ⟨"A", [], [], false, none, none, none⟩
      ⟨"E", []⟩ false).1
    rw [h]
    decide
  · have h := (c2_stability_comments "FooRequest" (.reference "X" [])
      ⟨"A", [], [], false, []⟩ ⟨"A", [], [], false, none, none, none⟩
      ⟨"E", []⟩ false).1
    rw [h]
    decide
  · have h := (c2_stability_comments "Hit" (.reference "X" [])
      ⟨"A", [], [], false, []⟩ ⟨"A", [], [], false, none, none, none⟩
      ⟨"E", []⟩ false).1
    rw [h]
    decide
